import Mathlib

/-!
Verification of the lineforge session manager against its specification.

This file gives a shallow embedding, in Lean 4, of the parts of the
lineforge source that the checked claims are about:

* the session data model (`src/session/model.rs`),
* the bounded session log and its broadcast channel (`src/session/log.rs`),
* the session registry lifecycle: spawn / get / stop and the PTY
  supervisor's reap step (`src/session/manager.rs`),
* the resize HTTP handler (`src/server/api.rs`),
* the transcript-parser helpers `compact_string`, `strip_ansi`,
  `normalize_terminal_output`, `tail_chars`, `parse_numbered_menu_line`,
  `parse_terminal_choice_prompt` and
  `augment_snapshot_from_terminal_output` (`src/session/chat.rs`).

Machine integers are modelled as `Nat` (no arithmetic in the embedded code
overflows), timestamps as `Nat`, UUIDs as `Nat`, paths as `String`.
Rust code that can panic is embedded as an `Option`-returning function
with `none` for the panic.  External effects (the PTY itself, the child
process, the filesystem, the kill(2) call) are modelled by passing their
outcomes in as explicit arguments.
-/

set_option maxRecDepth 20000

/-! ## Data model (src/session/model.rs) -/

/-- Session status, from `enum SessionStatus` in src/session/model.rs. -/
inductive SessionStatus where
  | running
  | stopped
  | errored (msg : String)
deriving DecidableEq, Repr

/-- Tool kind, from `enum ToolKind` in src/session/model.rs. -/
inductive ToolKind where
  | claude
  | codex
deriving DecidableEq, Repr

/-- Session metadata, from `struct SessionMeta` in src/session/model.rs.
`DateTime<Utc>` timestamps are modelled as `Nat`, `Uuid` as `Nat`,
`PathBuf` as `String`, `Option<u32>` pid as `Option Nat`. -/
structure SessionMeta where
  id : Nat
  name : String
  tool : ToolKind
  status : SessionStatus
  working_dir : String
  created_at : Nat
  updated_at : Nat
  pid : Option Nat
  extra_args : List String
deriving DecidableEq, Repr

/-- Error enum, from `enum ForgeError` in src/error.rs (payloads of the
transparent Io/Serde wrappers are modelled as message strings). -/
inductive ForgeError where
  | sessionNotFound (id : Nat)
  | sessionAlreadyStopped (id : Nat)
  | pty (msg : String)
  | config (msg : String)
  | io (msg : String)
  | serde (msg : String)
  | iterm (msg : String)
deriving DecidableEq, Repr

/-! ## ToolKind conversions (src/session/model.rs, lines 31-51) -/

/-- Display impl for ToolKind (src/session/model.rs lines 31-38). -/
def ToolKind.toDisplay : ToolKind → String
  | .claude => "claude"
  | .codex => "codex"

/-- Model of Rust `str::to_lowercase` as used by `ToolKind::from_str` and by
`parse_terminal_choice_prompt`.  Rust performs full Unicode lowercasing;
this embedding lowercases exactly the ASCII range `A`..`Z` and leaves every
other scalar value unchanged.  The two functions agree on all ASCII input,
and they give the same results for every comparison the embedded code
performs: the strings compared against ("claude", "codex",
"would you like to", "ready to execute") consist of ASCII letters and
spaces, and by the Unicode case-mapping tables the only scalar values whose
lowercase form is one of those ASCII letters are the corresponding ASCII
uppercase letters themselves (the sole non-ASCII mappings landing in ASCII
are U+212A KELVIN SIGN to "k" and U+0130 to "i"+U+0307, and neither "k"
nor "i"+U+0307 occurs in any of the compared strings). -/
def rustCharToLower (c : Char) : Char :=
  if 65 ≤ c.toNat ∧ c.toNat ≤ 90 then Char.ofNat (c.toNat + 32) else c

/-- Lowercase a whole string; see `rustCharToLower` for the relation to
Rust `str::to_lowercase`. -/
def rustToLowercase (s : String) : String :=
  ⟨s.data.map rustCharToLower⟩

/-- FromStr impl for ToolKind (src/session/model.rs lines 40-51):
match on the lowercased input. -/
def ToolKind.fromStr (s : String) : Except String ToolKind :=
  let other := rustToLowercase s
  if other = "claude" then .ok .claude
  else if other = "codex" then .ok .codex
  else .error ("Unknown tool: " ++ other ++ ". Expected 'claude' or 'codex'")

/-- Success test for the embedded Result type. -/
def exceptOk {ε α : Type} : Except ε α → Bool
  | .ok _ => true
  | .error _ => false

/-! ## Session log (src/session/log.rs) -/

/-- Log entry, from `struct LogEntry` in src/session/log.rs; the
`DateTime<Utc>` timestamp is modelled as `Nat`. -/
structure LogEntry where
  timestamp : Nat
  data : String
deriving DecidableEq, Repr

/-- Model of the `tokio::sync::broadcast` sender held by the log: its fixed
capacity (the argument passed to `broadcast::channel`) and the sequence of
entries sent on it. -/
structure BroadcastChannel where
  capacity : Nat
  sent : List LogEntry
deriving DecidableEq, Repr

/-- Sending on the broadcast channel appends to the sent sequence. -/
def BroadcastChannel.send (ch : BroadcastChannel) (e : LogEntry) : BroadcastChannel :=
  { ch with sent := ch.sent ++ [e] }

/-- Session log, from `struct SessionLog` in src/session/log.rs.  The
`VecDeque` buffer is a list with the oldest entry first.  The best-effort
append to the on-disk log file is an external effect and is not part of
the state; the `log_file` path is kept as data. -/
structure SessionLog where
  buffer : List LogEntry
  max_lines : Nat
  broadcast_tx : BroadcastChannel
  log_file : Option String
deriving DecidableEq, Repr

/-- Constructor `SessionLog::new` (src/session/log.rs lines 22-30):
`broadcast::channel(1000)` fixes the broadcast capacity at 1000. -/
def SessionLog.new (max_lines : Nat) (log_file : Option String) : SessionLog :=
  { buffer := []
    max_lines := max_lines
    broadcast_tx := { capacity := 1000, sent := [] }
    log_file := log_file }

/-- Push `SessionLog::push` (src/session/log.rs lines 32-57): build the
entry with the current timestamp (passed in as `now`), head-drop if the
buffer is at or above capacity, append, and send on the broadcast. -/
def SessionLog.push (log : SessionLog) (now : Nat) (data : String) : SessionLog :=
  let entry : LogEntry := { timestamp := now, data := data }
  let buffer := if log.max_lines ≤ log.buffer.length then log.buffer.tail else log.buffer
  { log with
    buffer := buffer ++ [entry]
    broadcast_tx := log.broadcast_tx.send entry }

/-- Snapshot `SessionLog::snapshot` (src/session/log.rs lines 59-61): a
copy of the ring contents, oldest first. -/
def SessionLog.snapshot (log : SessionLog) : List LogEntry :=
  log.buffer

/-- Fold a list of (timestamp, data) pushes into the log. -/
def SessionLog.pushAll (log : SessionLog) (ps : List (Nat × String)) : SessionLog :=
  ps.foldl (fun l p => l.push p.1 p.2) log

/-- The entry a (timestamp, data) pair becomes. -/
def mkLogEntry (p : Nat × String) : LogEntry :=
  { timestamp := p.1, data := p.2 }

/-! ## Session registry (src/session/manager.rs)

The registry map `HashMap<Uuid, Arc<RwLock<LiveSession>>>` is modelled as an
association list from the (Nat-modelled) UUID to the session metadata; the
claims under verification only read and mutate metadata, so the log and the
input channel of a `LiveSession` are not carried here.  Each operation that
reads the wall clock (`chrono::Utc::now()`) takes the current time as an
explicit `now : Nat` argument. -/

/-- Registry contents: UUID-keyed association list of session metadata. -/
abbrev Registry := List (Nat × SessionMeta)

/-- Rewrite the metadata stored under one id, leaving other entries alone. -/
def updateSession (r : Registry) (id : Nat) (f : SessionMeta → SessionMeta) : Registry :=
  r.map (fun kv => if kv.1 = id then (kv.1, f kv.2) else kv)

/-- Lookup `SessionManager::get` (src/session/manager.rs lines 49-54). -/
def getSession (r : Registry) (id : Nat) : Except ForgeError SessionMeta :=
  match r.lookup id with
  | some m => .ok m
  | none => .error (.sessionNotFound id)

/-- Stop `SessionManager::stop` (src/session/manager.rs lines 210-241):
NotFound on a missing id, AlreadyStopped unless the status is Running,
otherwise set the status to Stopped and the updated_at time to now.  The
SIGTERM, the meta.json rewrite and the socket unlink are external effects;
note that the pid field is left untouched. -/
def stopSession (r : Registry) (id : Nat) (now : Nat) : Except ForgeError Registry :=
  match r.lookup id with
  | none => .error (.sessionNotFound id)
  | some m =>
    if m.status ≠ .running then .error (.sessionAlreadyStopped id)
    else .ok (updateSession r id (fun m => { m with status := .stopped, updated_at := now }))

/-- Result of `child.wait().await` in `run_pty_io`: an exit status with its
`success()` flag, or a wait error with its message. -/
inductive WaitResult where
  | exited (success : Bool)
  | waitFailed (msg : String)
deriving DecidableEq, Repr

/-- Status the reaper derives from the wait result
(src/session/manager.rs lines 308-312). -/
def exitToStatus : WaitResult → SessionStatus
  | .exited true => .stopped
  | .exited false => .errored "Process exited with non-zero status"
  | .waitFailed e => .errored e

/-- Reaper tail of `run_pty_io` (src/session/manager.rs lines 300-325):
if the session is still registered, replace the status with the one derived
from the wait result only when the current status is still Running, and in
all cases set updated_at to now and clear pid.  A session absent from the
registry is silently skipped.  The meta.json rewrite is an external
effect. -/
def reapSession (r : Registry) (id : Nat) (w : WaitResult) (now : Nat) : Registry :=
  updateSession r id (fun m =>
    { m with
      status := if m.status = .running then exitToStatus w else m.status
      updated_at := now
      pid := none })

/-- Registry-level lifecycle events.  A spawn carries the freshly drawn
UUID, the metadata inputs and the child pid (`child.id()` of a child that
has just been spawned and not yet awaited); a stop and a reap carry the id
and the wall-clock time of the operation. -/
inductive RegOp where
  | spawn (id : Nat) (name : String) (tool : ToolKind) (working_dir : String)
      (extra_args : List String) (pid : Nat) (now : Nat)
  | stop (id : Nat) (now : Nat)
  | reap (id : Nat) (w : WaitResult) (now : Nat)
deriving DecidableEq, Repr

/-- Metadata constructed by `SessionManager::spawn`
(src/session/manager.rs lines 122-133): status Running, pid from the
spawned child, created_at = updated_at = now. -/
def spawnMeta (id : Nat) (name : String) (tool : ToolKind) (working_dir : String)
    (extra_args : List String) (pid : Nat) (now : Nat) : SessionMeta :=
  { id := id
    name := name
    tool := tool
    status := .running
    working_dir := working_dir
    created_at := now
    updated_at := now
    pid := some pid
    extra_args := extra_args }

/-- One registry step.  A spawn with an id already present leaves the
registry unchanged: spawn draws the id from `Uuid::new_v4()`, so a
collision with a registered session never occurs; the embedding makes the
step total by treating that impossible case as a no-op.  A stop that
returns an error leaves the registry unchanged. -/
def stepReg (r : Registry) : RegOp → Registry
  | .spawn id name tool wd args pid now =>
    if (r.lookup id).isSome then r
    else (id, spawnMeta id name tool wd args pid now) :: r
  | .stop id now =>
    match stopSession r id now with
    | .ok r' => r'
    | .error _ => r
  | .reap id w now => reapSession r id w now

/-- Registry states reachable from the empty registry by lifecycle events. -/
def reachReg (r : Registry) : Prop :=
  ∃ ops : List RegOp, r = ops.foldl stepReg []

/-! ## Resize (src/server/api.rs lines 114-129, registry part modelled)

The HTTP handler `resize_session` rejects rows or cols outside 1..=500 and
otherwise forwards to `SessionManager::resize`. -/

/-- Modelled from the spec: `SessionManager::resize` is invoked by
`resize_session` in src/server/api.rs line 125 but its definition is not
among the provided sources (the manager.rs file given carries neither
`resize` nor the size watch).  Per the spec's registry contract,
"resize(id, rows, cols) → Ok or NotFound / AlreadyStopped / InvalidSize",
with the bounds already enforced by the HTTP layer, the registry call
returns NotFound for an unknown id, AlreadyStopped for a session whose
status is not Running, and Ok otherwise (the PTY resize and the size-cell
update are external effects). -/
def SessionManager.resize (r : Registry) (id : Nat) (_rows _cols : Nat) :
    Except ForgeError Unit :=
  match r.lookup id with
  | none => .error (.sessionNotFound id)
  | some m =>
    if m.status ≠ .running then .error (.sessionAlreadyStopped id)
    else .ok ()

/-- Failure of the resize HTTP endpoint: the in-handler bounds rejection
("rows and cols must be 1-500", src/server/api.rs lines 119-124) or an
error propagated from the registry. -/
inductive ResizeFailure where
  | invalidSize
  | forge (e : ForgeError)
deriving DecidableEq, Repr

/-- Handler `resize_session` (src/server/api.rs lines 114-129): reject
rows or cols outside 1..=500 before touching the registry, then forward
to `SessionManager::resize`. -/
def resize_session (r : Registry) (id : Nat) (rows cols : Nat) :
    Except ResizeFailure Unit :=
  if rows = 0 ∨ 500 < rows ∨ cols = 0 ∨ 500 < cols then .error .invalidSize
  else
    match SessionManager.resize r id rows cols with
    | .ok _ => .ok ()
    | .error e => .error (.forge e)

/-! ## Spawn: PTY phase (src/session/manager.rs lines 106-119,
src/server/api.rs lines 48-83) -/

/-- PTY size as requested at spawn. -/
structure PtySize where
  rows : Nat
  cols : Nat
deriving DecidableEq, Repr

/-- PTY phase of `SessionManager::spawn`: open the PTY pair and resize it,
each failure mapped to `ForgeError::Pty` with the source's message
(src/session/manager.rs lines 106-112).  The outcomes of the two external
calls `pty_process::open()` and `pty.resize(..)` are passed in as
arguments.  The rows and cols arguments are modelled from the spec: the
handler `create_session` in src/server/api.rs line 68 passes the requested
rows and cols into spawn, but the spawn definition among the provided
sources is an earlier four-argument form with a hard-coded size; per the
spec, step 4 of the creation protocol resizes to the requested rows by
cols. -/
def spawnPtyPhase (openResult : Except String Unit) (resizeResult : Except String Unit)
    (rows cols : Nat) : Except ForgeError PtySize :=
  match openResult with
  | .error e => .error (.pty ("Failed to create PTY: " ++ e))
  | .ok _ =>
    match resizeResult with
    | .error e => .error (.pty ("Failed to resize PTY: " ++ e))
    | .ok _ => .ok { rows := rows, cols := cols }

/-- Defaults applied by `create_session` (src/server/api.rs lines 64-65):
rows defaults to 24 and cols to 80 when the request leaves them
unspecified. -/
def requestedSize (reqRows reqCols : Option Nat) : Nat × Nat :=
  (reqRows.getD 24, reqCols.getD 80)

/-! ## Attach listener bind phase (src/session/manager.rs lines 502-526,
177-193) -/

/-- Observable outcome of the bind phase of `run_attach_listener`: whether
the socket-ready oneshot was signalled, whether the listener stayed alive
to accept connections, and the error string logged on a failed bind. -/
structure AttachListenerOutcome where
  readySignaled : Bool
  listening : Bool
  loggedBindError : Option String
deriving DecidableEq, Repr

/-- Bind phase of `run_attach_listener` (src/session/manager.rs lines
513-526): on a successful bind, signal socket-ready and keep listening; on
a failed bind, still signal socket-ready, log the error, and return
(leaving the session with no attach listener). -/
def run_attach_listener_bind (bindResult : Except String Unit) : AttachListenerOutcome :=
  match bindResult with
  | .ok _ => { readySignaled := true, listening := true, loggedBindError := none }
  | .error e => { readySignaled := true, listening := false, loggedBindError := some e }

/-- Tail of `SessionManager::spawn` (src/session/manager.rs lines 177-193):
spawn launches the attach listener, waits for the socket-ready signal
(discarding its result, line 191), and returns Ok(meta); the bind outcome
never influences the returned value. -/
def spawnAttachPhase (meta : SessionMeta) (bindResult : Except String Unit) :
    Except ForgeError SessionMeta × AttachListenerOutcome :=
  (.ok meta, run_attach_listener_bind bindResult)

/-! ## Transcript parser helpers (src/session/chat.rs)

Strings are Lean `String`s (lists of Unicode scalar values); Rust byte
indices are recovered through the UTF-8 width of each scalar value.
`String::truncate` panics when the cut is not a character boundary, so
`compact_string` and everything built on it return an `Option`, with
`none` standing for the panic. -/

/-- Cap `MAX_TEXT_LEN` (src/session/chat.rs line 9). -/
def MAX_TEXT_LEN : Nat := 6000

/-- Model of Rust `char::is_whitespace`: the Unicode White_Space property,
which holds exactly for U+0009..U+000D, U+0020, U+0085, U+00A0, U+1680,
U+2000..U+200A, U+2028, U+2029, U+202F, U+205F and U+3000. -/
def rustIsWhitespace (c : Char) : Bool :=
  let n := c.toNat
  (decide (9 ≤ n) && decide (n ≤ 13)) || n == 32 || n == 133 || n == 160 ||
    n == 5760 || (decide (8192 ≤ n) && decide (n ≤ 8202)) || n == 8232 ||
    n == 8233 || n == 8239 || n == 8287 || n == 12288

/-- Model of Rust `str::trim_start`. -/
def rustTrimStart (s : String) : String :=
  ⟨s.data.dropWhile rustIsWhitespace⟩

/-- Model of Rust `str::trim_end`. -/
def rustTrimEnd (s : String) : String :=
  ⟨(s.data.reverse.dropWhile rustIsWhitespace).reverse⟩

/-- Model of Rust `str::trim`. -/
def rustTrim (s : String) : String :=
  rustTrimEnd (rustTrimStart s)

/-- Model of Rust `char::len_utf8`: the number of bytes of the UTF-8
encoding of a scalar value. -/
def charLenUtf8 (c : Char) : Nat :=
  if c.toNat < 0x80 then 1
  else if c.toNat < 0x800 then 2
  else if c.toNat < 0x10000 then 3
  else 4

/-- Byte length (`str::len`) of a list of scalar values. -/
def utf8Len : List Char → Nat
  | [] => 0
  | c :: cs => charLenUtf8 c + utf8Len cs

/-- Prefix of a scalar-value list spanning exactly `n` UTF-8 bytes, or
`none` when byte offset `n` is not a character boundary (or past the
end). -/
def takeBytes : Nat → List Char → Option (List Char)
  | 0, _ => some []
  | _ + 1, [] => none
  | n + 1, c :: cs =>
    if charLenUtf8 c ≤ n + 1 then (takeBytes (n + 1 - charLenUtf8 c) cs).map (c :: ·)
    else none

/-- Model of Rust `String::truncate(n)`: a no-op when the byte length is
at most `n`, the byte-`n` prefix when `n` is a character boundary, and a
panic (`none`) otherwise. -/
def rustTruncate (s : String) (n : Nat) : Option String :=
  if utf8Len s.data ≤ n then some s
  else (takeBytes n s.data).map (fun l => ⟨l⟩)

/-- Helper `compact_string` (src/session/chat.rs lines 943-950): trim,
then, when the byte length exceeds `MAX_TEXT_LEN`, truncate to
`MAX_TEXT_LEN` bytes and push the ellipsis character.  The truncation
panics (modelled as `none`) when byte offset 6000 of the trimmed string
falls inside a character. -/
def compact_string (input : String) : Option String :=
  let s := rustTrim input
  if MAX_TEXT_LEN < utf8Len s.data then
    (rustTruncate s MAX_TEXT_LEN).map (fun t => t.push '…')
  else some s

/-- ESC, BEL and BS scalar values used by the terminal normalizer. -/
def escChar : Char := Char.ofNat 27

/-- BEL scalar value. -/
def belChar : Char := Char.ofNat 7

/-- BS scalar value. -/
def bsChar : Char := Char.ofNat 8

/-- CSI tail scan of `strip_ansi` (src/session/chat.rs lines 890-897):
discard scalar values up to and including the first final byte in
`@`..=`~`. -/
def dropCsiParams : List Char → List Char
  | [] => []
  | c :: rest => if '@' ≤ c ∧ c ≤ '~' then rest else dropCsiParams rest

/-- OSC tail scan of `strip_ansi` (src/session/chat.rs lines 898-911):
discard scalar values up to and including a BEL, or an ESC immediately
followed by a backslash (the backslash is consumed too); an ESC not
followed by a backslash is skipped and scanning continues with the next
scalar value. -/
def dropOscBody : List Char → List Char
  | [] => []
  | c :: rest =>
    if c = belChar then rest
    else if c = escChar ∧ rest.head? = some '\\' then rest.tail
    else dropOscBody rest

/-- Length bound for the CSI scan. -/
theorem dropCsiParams_length_le (l : List Char) : (dropCsiParams l).length ≤ l.length := by
  induction l with
  | nil => simp [dropCsiParams]
  | cons c rest ih =>
    simp only [dropCsiParams]
    split
    · simp
    · exact Nat.le_trans ih (Nat.le_succ _)

/-- Length bound for the OSC scan. -/
theorem dropOscBody_length_le (l : List Char) : (dropOscBody l).length ≤ l.length := by
  induction l with
  | nil => simp [dropOscBody]
  | cons c rest ih =>
    simp only [dropOscBody]
    split
    · simp
    · split
      · cases rest
        · simp
        · simp only [List.tail_cons, List.length_cons]
          omega
      · exact Nat.le_trans ih (Nat.le_succ _)

/-- Core loop of `strip_ansi` (src/session/chat.rs lines 879-918): copy
scalar values through, except that an ESC starts an escape sequence: ESC
`[` consumes through the CSI final byte, ESC `]` consumes an OSC body, and
any other ESC is dropped on its own (its successor, if any, is processed
normally). -/
def stripAnsiChars : List Char → List Char
  | [] => []
  | c :: rest =>
    if c = escChar then
      match rest with
      | [] => []
      | d :: rest2 =>
        if d = '[' then stripAnsiChars (dropCsiParams rest2)
        else if d = ']' then stripAnsiChars (dropOscBody rest2)
        else stripAnsiChars (d :: rest2)
    else c :: stripAnsiChars rest
termination_by l => l.length
decreasing_by
  · exact Nat.lt_succ_of_le (Nat.le_trans (dropCsiParams_length_le _) (Nat.le_succ _))
  · exact Nat.lt_succ_of_le (Nat.le_trans (dropOscBody_length_le _) (Nat.le_succ _))
  · simp
  · simp

/-- Function `strip_ansi` (src/session/chat.rs lines 879-918). -/
def strip_ansi (input : String) : String :=
  ⟨stripAnsiChars input.data⟩

/-- Function `normalize_terminal_output` (src/session/chat.rs lines
920-925): strip ANSI escapes, delete BEL, turn CR into LF, delete BS. -/
def normalize_terminal_output (input : String) : String :=
  ⟨(((strip_ansi input).data.filter (fun c => c ≠ belChar)).map
      (fun c => if c = '\r' then '\n' else c)).filter (fun c => c ≠ bsChar)⟩

/-- Function `tail_chars` (src/session/chat.rs lines 927-933): the whole
string when it has at most `max_chars` scalar values, otherwise its last
`max_chars` scalar values. -/
def tail_chars (input : String) (max_chars : Nat) : String :=
  let count := input.data.length
  if count ≤ max_chars then input
  else ⟨input.data.drop (count - max_chars)⟩

/-- Split at LF scalar values; segments keep no terminator.  An empty
input yields one empty segment, matching the recursion. -/
def splitNewlines : List Char → List (List Char)
  | [] => [[]]
  | c :: rest =>
    if c = '\n' then [] :: splitNewlines rest
    else
      match splitNewlines rest with
      | [] => [[c]]
      | seg :: segs => (c :: seg) :: segs

/-- Drop one trailing CR, as Rust `str::lines` does per line. -/
def stripTrailingCR (l : String) : String :=
  if l.data.getLast? = some '\r' then ⟨l.data.dropLast⟩ else l

/-- Model of Rust `str::lines`: split at LF or CRLF, with an optional
final terminator producing no trailing empty line. -/
def rustLines (s : String) : List String :=
  if s.data = [] then []
  else
    let segs := splitNewlines s.data
    let segs := if segs.getLast? = some [] then segs.dropLast else segs
    segs.map (fun l => stripTrailingCR ⟨l⟩)

/-! ## Chat snapshot types (src/session/chat.rs lines 11-60) -/

/-- Chat message, from `struct ChatMessage`. -/
structure ChatMessage where
  id : String
  role : String
  kind : String
  text : String
  timestamp : Option String
  tool_name : Option String
  is_error : Bool
deriving DecidableEq, Repr

/-- Question option, from `struct PendingQuestionOption`. -/
structure PendingQuestionOption where
  label : String
  description : String
deriving DecidableEq, Repr

/-- Question item, from `struct PendingQuestionItem`. -/
structure PendingQuestionItem where
  header : String
  question : String
  options : List PendingQuestionOption
  multi_select : Bool
deriving DecidableEq, Repr

/-- Pending question, from `struct PendingQuestion`. -/
structure PendingQuestion where
  tool_use_id : String
  questions : List PendingQuestionItem
deriving DecidableEq, Repr

/-- Plan summary, from `struct PlanSummary`. -/
structure PlanSummary where
  source : String
  items : List String
  markdown : Option String
deriving DecidableEq, Repr

/-- Chat snapshot, from `struct ChatSnapshot`. -/
structure ChatSnapshot where
  available : Bool
  transcript_path : Option String
  permission_mode : String
  view_mode : String
  state : String
  status_label : String
  messages : List ChatMessage
  pending_question : Option PendingQuestion
  plan : Option PlanSummary
deriving DecidableEq, Repr

/-! ## Terminal choice-prompt parsing (src/session/chat.rs lines 745-839) -/

/-- Leading marker characters a menu line may carry. -/
def menuMarkerChars : List Char := ['❯', '>', '›', '•']

/-- Value of a string of ASCII digits. -/
def digitsToNat (l : List Char) : Nat :=
  l.foldl (fun acc c => acc * 10 + (c.toNat - 48)) 0

/-- Function `parse_numbered_menu_line` (src/session/chat.rs lines
812-839): strip leading whitespace, marker characters and whitespace; read
a nonempty ASCII-digit run and parse it as a usize (values at or above
2^64 fail the parse); require a literal dot after optional whitespace;
compact the rest into the option label.  The result is `none` for a panic
inside `compact_string`, otherwise `some` of the parsed (number, label)
pair or of `none` when the line is not a menu item. -/
def parse_numbered_menu_line (line : String) : Option (Option (Nat × String)) :=
  let trimmed :=
    ((line.data.dropWhile rustIsWhitespace).dropWhile (fun c => c ∈ menuMarkerChars)).dropWhile
      rustIsWhitespace
  let digits := trimmed.takeWhile Char.isDigit
  if digits.length = 0 then some none
  else if 2 ^ 64 ≤ digitsToNat digits then some none
  else
    let num := digitsToNat digits
    let rest := (trimmed.drop digits.length).dropWhile rustIsWhitespace
    match rest with
    | '.' :: rest2 =>
      (compact_string (rustTrim ⟨rest2⟩)).map (fun label =>
        if label = "" then none else some (num, label))
    | _ => some none

/-- Substring test on scalar-value lists (Rust `str::contains(&str)`). -/
def listHasInfix (needle : List Char) : List Char → Bool
  | [] => needle.isEmpty
  | c :: rest => needle.isPrefixOf (c :: rest) || listHasInfix needle rest

/-- Question-line test of `parse_terminal_choice_prompt`
(src/session/chat.rs lines 787-791): the line carries a question mark or
its lowercase form carries one of two fixed phrases. -/
def questionLineMatches (line : String) : Bool :=
  line.data.contains '?' ||
    listHasInfix "would you like to".data (rustToLowercase line).data ||
    listHasInfix "ready to execute".data (rustToLowercase line).data

/-- Backwards scan for the last line parsing as menu item number 1
(src/session/chat.rs lines 756-765); the argument is the number of lines
still to inspect, counted from the end. -/
def findMenuStart (lines : List String) : Nat → Option (Option Nat)
  | 0 => some none
  | i + 1 => do
    let r ← parse_numbered_menu_line (lines.getD i "")
    match r with
    | some (num, _) => if num = 1 then pure (some i) else findMenuStart lines i
    | none => findMenuStart lines i

/-- Forward collection of menu options with numbers deduplicated through
the `seen` set (src/session/chat.rs lines 767-779). -/
def collectMenuOptions : List String → List Nat → List PendingQuestionOption →
    Option (List PendingQuestionOption)
  | [], _, opts => some opts
  | l :: ls, seen, opts => do
    let r ← parse_numbered_menu_line l
    match r with
    | some (num, label) =>
      if num ∈ seen then collectMenuOptions ls seen opts
      else collectMenuOptions ls (num :: seen) (opts ++ [{ label := label, description := "" }])
    | none => collectMenuOptions ls seen opts

/-- Function `parse_terminal_choice_prompt` (src/session/chat.rs lines
745-810): compact the nonempty lines of the last 25000 scalar values, find
the last menu line numbered 1, collect up to 12 following lines as
deduplicated options, require at least two, gather question text from the
8 lines before the start line up through the start line, and build the
pending question tagged "terminal-choice".  The outer `Option` is `none`
when a `compact_string` call panics. -/
def parse_terminal_choice_prompt (output : String) : Option (Option PendingQuestion) := do
  let tailStr := tail_chars output 25000
  let compacted ← (rustLines tailStr).mapM compact_string
  let lines := compacted.filter (fun l => l ≠ "")
  if lines.isEmpty then pure none
  else do
    let startOpt ← findMenuStart lines lines.length
    match startOpt with
    | none => pure none
    | some start_idx => do
      let endIdx := min lines.length (start_idx + 12)
      let options ← collectMenuOptions ((lines.take endIdx).drop start_idx) [] []
      if options.length < 2 then pure none
      else
        let search_start := start_idx - 8
        let question_parts := ((lines.take (start_idx + 1)).drop search_start).filter
          questionLineMatches
        if question_parts.isEmpty then pure none
        else do
          let question ← compact_string (String.intercalate " " question_parts)
          pure (some
            { tool_use_id := "terminal-choice"
              questions := [{ header := "Continue"
                              question := question
                              options := options
                              multi_select := false }] })

/-- Function `augment_snapshot_from_terminal_output` (src/session/chat.rs
lines 591-609): when the snapshot already carries a pending question, or
the normalized terminal output is empty, return the snapshot unchanged;
otherwise set `pending_question` to a parsed terminal choice prompt, if
any.  The result is `none` when the prompt parser panics. -/
def augment_snapshot_from_terminal_output (snapshot : ChatSnapshot)
    (terminal_output : String) : Option ChatSnapshot :=
  if snapshot.pending_question.isSome then some snapshot
  else
    let normalized := normalize_terminal_output terminal_output
    if normalized = "" then some snapshot
    else do
      let q ← parse_terminal_choice_prompt normalized
      match q with
      | some question => some { snapshot with pending_question := some question }
      | none => some snapshot

/-! ## Theorems -/

/-- C10: ToolKind string conversion round-trips and is case-insensitive:
for every ToolKind t, parsing its display string yields Ok t; parsing any
string succeeds exactly when its (ASCII-)lowercase form is "claude" or
"codex", and every other string yields an error; in particular "CLAUDE"
parses to Claude. -/
theorem toolKind_fromStr_roundtrip_case_insensitive :
    (∀ t : ToolKind, ToolKind.fromStr t.toDisplay = .ok t) ∧
    (∀ s : String,
      exceptOk (ToolKind.fromStr s) = true ↔
        (rustToLowercase s = "claude" ∨ rustToLowercase s = "codex")) ∧
    ToolKind.fromStr "CLAUDE" = .ok .claude := by
  refine ⟨?_, ?_, by rfl⟩
  · intro t
    cases t <;> rfl
  · intro s
    by_cases h1 : rustToLowercase s = "claude"
    · simp [ToolKind.fromStr, exceptOk, h1]
    · by_cases h2 : rustToLowercase s = "codex" <;>
        simp [ToolKind.fromStr, exceptOk, h1, h2]

/-- C4 counterexample: the broadcast channel a fresh session log sends on
has fixed capacity 1000, not 1024 as claimed. -/
theorem sessionLog_broadcast_capacity_not_1024 :
    (SessionLog.new 10 none).broadcast_tx.capacity = 1000 ∧
    (SessionLog.new 10 none).broadcast_tx.capacity ≠ 1024 := by
  exact ⟨rfl, by decide⟩

/-- C4 amended: every push on the session log sends the entry on the
log's broadcast channel, whose fixed backlog capacity, set at
construction, is exactly 1000 entries. -/
theorem sessionLog_push_broadcasts_capacity_1000 :
    (∀ (m : Nat) (f : Option String), (SessionLog.new m f).broadcast_tx.capacity = 1000) ∧
    (∀ (log : SessionLog) (now : Nat) (data : String),
      (log.push now data).broadcast_tx.sent =
          log.broadcast_tx.sent ++ [{ timestamp := now, data := data }] ∧
        (log.push now data).broadcast_tx.capacity = log.broadcast_tx.capacity) :=
  ⟨fun _ _ => rfl, fun _ _ _ => ⟨rfl, rfl⟩⟩

/-- A push leaves the capacity field unchanged. -/
theorem push_max_lines (log : SessionLog) (now : Nat) (data : String) :
    (log.push now data).max_lines = log.max_lines := rfl

/-- Buffer shape after one push, for a log within capacity. -/
theorem push_buffer_eq (log : SessionLog) (now : Nat) (data : String)
    (hcap : 1 ≤ log.max_lines) (hlen : log.buffer.length ≤ log.max_lines) :
    (log.push now data).buffer =
      (log.buffer ++ [({ timestamp := now, data := data } : LogEntry)]).drop
        (log.buffer.length + 1 - log.max_lines) := by
  have h1 : (log.push now data).buffer =
      (if log.max_lines ≤ log.buffer.length then log.buffer.tail else log.buffer) ++
        [({ timestamp := now, data := data } : LogEntry)] := rfl
  rw [h1]
  by_cases h : log.max_lines ≤ log.buffer.length
  · have hidx : log.buffer.length + 1 - log.max_lines = 1 := by omega
    rw [if_pos h, hidx, List.drop_append_of_le_length (by omega), List.drop_one]
  · have hidx : log.buffer.length + 1 - log.max_lines = 0 := by omega
    rw [if_neg h, hidx, List.drop_zero]

/-- Buffer contents after a sequence of pushes into a log within
capacity, for positive capacity. -/
theorem pushAll_buffer_general (cap : Nat) (hcap : 1 ≤ cap) (ps : List (Nat × String)) :
    ∀ log : SessionLog, log.max_lines = cap → log.buffer.length ≤ cap →
      (SessionLog.pushAll log ps).buffer =
        (log.buffer ++ ps.map mkLogEntry).drop (log.buffer.length + ps.length - cap) := by
  induction ps with
  | nil =>
    intro log hml hlen
    have h0 : log.buffer.length - cap = 0 := by omega
    simp [SessionLog.pushAll, h0]
  | cons p ps ih =>
    intro log hml hlen
    have hstep : SessionLog.pushAll log (p :: ps) =
        SessionLog.pushAll (log.push p.1 p.2) ps := rfl
    have hpb : (log.push p.1 p.2).buffer =
        (log.buffer ++ [mkLogEntry p]).drop (log.buffer.length + 1 - cap) := by
      rw [push_buffer_eq log p.1 p.2 (hml ▸ hcap) (hml ▸ hlen), hml]
      rfl
    have hlen' : (log.push p.1 p.2).buffer.length ≤ cap := by
      rw [hpb, List.length_drop]
      simp only [List.length_append, List.length_cons, List.length_nil]
      omega
    rw [hstep, ih (log.push p.1 p.2) (hml ▸ push_max_lines log p.1 p.2) hlen', hpb]
    rw [← List.drop_append_of_le_length
      (show log.buffer.length + 1 - cap ≤ (log.buffer ++ [mkLogEntry p]).length by
        simp only [List.length_append, List.length_cons, List.length_nil]; omega)]
    rw [List.drop_drop]
    rw [show (log.buffer ++ [mkLogEntry p]) ++ ps.map mkLogEntry =
        log.buffer ++ (p :: ps).map mkLogEntry by simp]
    congr 1
    rw [List.length_drop]
    simp only [List.length_append, List.length_cons, List.length_nil, List.length_map]
    omega

/-- C6 counterexample: with max_log_lines = 0 a single push from the empty
log leaves one entry in the ring, while the claim demands the last zero
entries, that is, none. -/
theorem sessionLog_capacity_zero_keeps_one :
    (SessionLog.pushAll (SessionLog.new 0 none) [(0, "a")]).snapshot ≠
      ([((0 : Nat), "a")].map mkLogEntry).drop (1 - 0) := by
  decide

/-- C6 amended: for positive capacity max_log_lines, after more pushes
than the capacity the snapshot holds exactly the last max_log_lines
entries, oldest first, and a push at capacity discards exactly the oldest
entry. -/
theorem sessionLog_bounded_fifo (cap : Nat) (hcap : 1 ≤ cap)
    (ps : List (Nat × String)) (hn : cap < ps.length) :
    (SessionLog.pushAll (SessionLog.new cap none) ps).snapshot =
        (ps.map mkLogEntry).drop (ps.length - cap) ∧
      ∀ (log : SessionLog) (now : Nat) (data : String),
        log.buffer.length = log.max_lines →
        (log.push now data).buffer =
          log.buffer.tail ++ [({ timestamp := now, data := data } : LogEntry)] := by
  constructor
  · have h := pushAll_buffer_general cap hcap ps (SessionLog.new cap none) rfl
      (by simp [SessionLog.new])
    simpa [SessionLog.snapshot, SessionLog.new] using h
  · intro log now data h
    show (if log.max_lines ≤ log.buffer.length then log.buffer.tail else log.buffer) ++
        [{ timestamp := now, data := data }] = _
    rw [if_pos (Nat.le_of_eq h.symm)]

/-- Unfolding of lookup at a cons cell, stated with propositional
equality on the keys. -/
theorem lookup_cons_reg (a : Nat) (b : SessionMeta) (r : Registry) (id : Nat) :
    List.lookup id ((a, b) :: r) = if a = id then some b else List.lookup id r := by
  show (match id == a with
    | true => some b
    | false => List.lookup id r) = _
  by_cases h : a = id
  · subst h; simp
  · have hb : (id == a) = false := by
      rw [beq_eq_false_iff_ne]
      exact fun he => h he.symm
    rw [hb]
    simp [h]

/-- Unfolding of updateSession at a cons cell. -/
theorem updateSession_cons (kv : Nat × SessionMeta) (r : Registry) (id : Nat)
    (f : SessionMeta → SessionMeta) :
    updateSession (kv :: r) id f =
      (if kv.1 = id then (kv.1, f kv.2) else kv) :: updateSession r id f := rfl

/-- Lookup after an update at the looked-up id applies the update. -/
theorem lookup_updateSession_self (r : Registry) (id : Nat) (f : SessionMeta → SessionMeta) :
    (updateSession r id f).lookup id = (r.lookup id).map f := by
  induction r with
  | nil => rfl
  | cons kv r ih =>
    obtain ⟨a, b⟩ := kv
    rw [updateSession_cons]
    by_cases h : a = id
    · rw [if_pos h]
      show List.lookup id ((a, f b) :: updateSession r id f) = _
      rw [lookup_cons_reg, lookup_cons_reg, if_pos h, if_pos h]
      rfl
    · rw [if_neg h]
      show List.lookup id ((a, b) :: updateSession r id f) = _
      rw [lookup_cons_reg, lookup_cons_reg, if_neg h, if_neg h]
      exact ih

/-- Lookup after an update at a different id is unchanged. -/
theorem lookup_updateSession_ne (r : Registry) (id id' : Nat)
    (f : SessionMeta → SessionMeta) (h : id' ≠ id) :
    (updateSession r id f).lookup id' = r.lookup id' := by
  induction r with
  | nil => rfl
  | cons kv r ih =>
    obtain ⟨a, b⟩ := kv
    rw [updateSession_cons]
    by_cases hk : a = id
    · have hk' : a ≠ id' := by rw [hk]; exact fun he => h he.symm
      rw [if_pos hk]
      show List.lookup id' ((a, f b) :: updateSession r id f) = _
      rw [lookup_cons_reg, lookup_cons_reg, if_neg hk', if_neg hk']
      exact ih
    · rw [if_neg hk]
      show List.lookup id' ((a, b) :: updateSession r id f) = _
      rw [lookup_cons_reg, lookup_cons_reg]
      by_cases hk2 : a = id'
      · rw [if_pos hk2, if_pos hk2]
      · rw [if_neg hk2, if_neg hk2]
        exact ih

/-- The reaper never produces a Running status from an exit result. -/
theorem exitToStatus_ne_running (w : WaitResult) : exitToStatus w ≠ .running := by
  cases w with
  | exited s => cases s <;> simp [exitToStatus]
  | waitFailed e => simp [exitToStatus]

/-- The metadata the reaper stores for a registered session. -/
theorem reap_lookup (r : Registry) (id : Nat) (w : WaitResult) (now : Nat)
    (m : SessionMeta) (hm : r.lookup id = some m) :
    (reapSession r id w now).lookup id =
      some { m with
             status := if m.status = .running then exitToStatus w else m.status
             updated_at := now
             pid := none } := by
  unfold reapSession
  rw [lookup_updateSession_self, hm]
  rfl

/-- Invariant: every registered session whose status is Running has a pid. -/
def runningHasPid (r : Registry) : Prop :=
  ∀ id m, r.lookup id = some m → m.status = .running → m.pid.isSome = true

/-- The empty registry satisfies the invariant. -/
theorem runningHasPid_empty : runningHasPid [] := by
  intro id m hm
  simp [List.lookup] at hm

/-- Characterization of the stop step on a missing id. -/
theorem stepReg_stop_notFound (r : Registry) (id0 now : Nat)
    (hl : r.lookup id0 = none) : stepReg r (.stop id0 now) = r := by
  have hss : stopSession r id0 now = .error (.sessionNotFound id0) := by
    rw [stopSession, hl]
  rw [stepReg, hss]

/-- Characterization of the stop step on a non-running session. -/
theorem stepReg_stop_terminal (r : Registry) (id0 now : Nat) (m0 : SessionMeta)
    (hl : r.lookup id0 = some m0) (hs : m0.status ≠ .running) :
    stepReg r (.stop id0 now) = r := by
  have hss : stopSession r id0 now = .error (.sessionAlreadyStopped id0) := by
    rw [stopSession, hl]
    exact if_pos hs
  rw [stepReg, hss]

/-- Characterization of the stop step on a running session. -/
theorem stepReg_stop_running (r : Registry) (id0 now : Nat) (m0 : SessionMeta)
    (hl : r.lookup id0 = some m0) (hs : m0.status = .running) :
    stepReg r (.stop id0 now) =
      updateSession r id0 (fun mm => { mm with status := .stopped, updated_at := now }) := by
  have hss : stopSession r id0 now =
      .ok (updateSession r id0 (fun mm => { mm with status := .stopped, updated_at := now })) := by
    rw [stopSession, hl]
    exact if_neg (not_not_intro hs)
  rw [stepReg, hss]

/-- Characterization of the spawn step on a fresh id. -/
theorem stepReg_spawn_fresh (r : Registry) (id0 : Nat) (name : String) (tool : ToolKind)
    (wd : String) (args : List String) (pid now : Nat)
    (hp : ¬(r.lookup id0).isSome = true) :
    stepReg r (.spawn id0 name tool wd args pid now) =
      (id0, spawnMeta id0 name tool wd args pid now) :: r := by
  simp [stepReg, hp]

/-- Every registry step preserves the invariant. -/
theorem stepReg_preserves_runningHasPid (r : Registry) (op : RegOp)
    (h : runningHasPid r) : runningHasPid (stepReg r op) := by
  cases op with
  | spawn id0 name tool wd args pid now =>
    by_cases hp : (r.lookup id0).isSome
    · simpa [stepReg, hp] using h
    · intro id' m hm hrun
      rw [stepReg_spawn_fresh r id0 name tool wd args pid now hp, lookup_cons_reg] at hm
      by_cases he : id0 = id'
      · rw [if_pos he] at hm
        injection hm with hm2
        rw [← hm2]
        rfl
      · rw [if_neg he] at hm
        exact h id' m hm hrun
  | stop id0 now =>
    intro id' m hm hrun
    cases hl : r.lookup id0 with
    | none =>
      rw [stepReg_stop_notFound r id0 now hl] at hm
      exact h id' m hm hrun
    | some m0 =>
      by_cases hs : m0.status = .running
      · rw [stepReg_stop_running r id0 now m0 hl hs] at hm
        by_cases he : id' = id0
        · subst he
          rw [lookup_updateSession_self, hl, Option.map_some'] at hm
          injection hm with hm2
          have hstat : m.status = .stopped := by rw [← hm2]
          rw [hstat] at hrun
          simp at hrun
        · rw [lookup_updateSession_ne r id0 id' _ he] at hm
          exact h id' m hm hrun
      · rw [stepReg_stop_terminal r id0 now m0 hl hs] at hm
        exact h id' m hm hrun
  | reap id0 w now =>
    intro id' m hm hrun
    have hstep : stepReg r (.reap id0 w now) = reapSession r id0 w now := rfl
    rw [hstep] at hm
    by_cases he : id' = id0
    · subst he
      cases hl : r.lookup id' with
      | none =>
        rw [reapSession, lookup_updateSession_self, hl] at hm
        simp at hm
      | some m0 =>
        rw [reap_lookup r id' w now m0 hl] at hm
        injection hm with hm2
        have hstat : m.status = if m0.status = .running then exitToStatus w else m0.status := by
          rw [← hm2]
        by_cases h0 : m0.status = .running
        · rw [if_pos h0] at hstat
          rw [hstat] at hrun
          exact absurd hrun (exitToStatus_ne_running w)
        · rw [if_neg h0] at hstat
          rw [hstat] at hrun
          exact absurd hrun h0
    · rw [reapSession, lookup_updateSession_ne r id0 id' _ he] at hm
      exact h id' m hm hrun

/-- A fold of steps from an invariant-satisfying start keeps the
invariant. -/
theorem foldl_preserves_runningHasPid (ops : List RegOp) :
    ∀ r0 : Registry, runningHasPid r0 → runningHasPid (ops.foldl stepReg r0) := by
  induction ops with
  | nil => intro r0 h; exact h
  | cons op ops ih =>
    intro r0 h
    exact ih (stepReg r0 op) (stepReg_preserves_runningHasPid r0 op h)

/-- C1 amended: in every reachable registry state, a session whose status
is Running has a pid; stop(id) on a running session succeeds and stores
status Stopped and updated_at = now while leaving pid untouched, so the
get(id) that follows observes status Stopped with the pid the session had
before the stop (possibly still Some); it is the supervisor's reap step
that clears pid. -/
theorem session_pid_running_invariant :
    (∀ r : Registry, reachReg r → ∀ id m, r.lookup id = some m →
      m.status = .running → m.pid.isSome = true) ∧
    (∀ (r : Registry) (id now : Nat) (m : SessionMeta),
      r.lookup id = some m → m.status = .running →
      stopSession r id now =
          .ok (updateSession r id (fun mm => { mm with status := .stopped, updated_at := now })) ∧
        getSession
            (updateSession r id (fun mm => { mm with status := .stopped, updated_at := now })) id =
          .ok { m with status := .stopped, updated_at := now }) ∧
    (∀ (r : Registry) (id : Nat) (w : WaitResult) (now : Nat) (m : SessionMeta),
      r.lookup id = some m →
      (reapSession r id w now).lookup id =
        some { m with
               status := if m.status = .running then exitToStatus w else m.status
               updated_at := now
               pid := none }) := by
  refine ⟨?_, ?_, fun r id w now m hm => reap_lookup r id w now m hm⟩
  · rintro r ⟨ops, rfl⟩
    exact foldl_preserves_runningHasPid ops [] runningHasPid_empty
  · intro r id now m hm hrun
    constructor
    · rw [stopSession, hm]
      exact if_neg (not_not_intro hrun)
    · rw [getSession, lookup_updateSession_self, hm, Option.map_some']

/-- Spawn event used by the concrete registry runs below. -/
def demoSpawnOp : RegOp := .spawn 1 "s" .claude "/w" [] 5 0

/-- Registry holding one running session, built by one spawn step. -/
def demoRunRegistry : Registry := [demoSpawnOp].foldl stepReg []

/-- Registry after spawning and then stopping session 1. -/
def demoStoppedRegistry : Registry := [demoSpawnOp, RegOp.stop 1 1].foldl stepReg []

/-- C1 witness: the invariant and the stop behavior at the one-session
registry built by a spawn step. -/
theorem session_pid_running_invariant_witness :
    (spawnMeta 1 "s" .claude "/w" [] 5 0).pid.isSome = true ∧
    stopSession demoRunRegistry 1 9 =
      .ok (updateSession demoRunRegistry 1
        (fun mm => { mm with status := .stopped, updated_at := 9 })) :=
  ⟨session_pid_running_invariant.1 demoRunRegistry ⟨[demoSpawnOp], rfl⟩ 1 _ rfl rfl,
    (session_pid_running_invariant.2.1 demoRunRegistry 1 9
      (spawnMeta 1 "s" .claude "/w" [] 5 0) rfl rfl).1⟩

/-- C1 counterexample: spawn session 1 with pid 5, then stop it; the
following get observes status Stopped while pid is still Some 5, against
the claim that get observes pid == None right after a successful stop and
that pid is Some iff the status is Running. -/
theorem stop_leaves_pid_set_counterexample :
    getSession demoStoppedRegistry 1 =
      .ok { id := 1, name := "s", tool := .claude, status := .stopped, working_dir := "/w",
            created_at := 0, updated_at := 1, pid := some 5, extra_args := [] } ∧
    ¬ ((Option.isSome (some 5 : Option Nat) = true) ↔ (SessionStatus.stopped = .running)) :=
  ⟨rfl, by decide⟩

/-- C5: the reaper derives the terminal status from the exit result
(success to Stopped, non-zero exit to Errored, wait failure to Errored)
and applies it only when the current status is still Running, in all cases
clearing pid and setting updated_at; and no registry step ever moves a
status out of Stopped or Errored. -/
theorem reaper_preserves_terminal_status :
    (∀ (r : Registry) (id : Nat) (w : WaitResult) (now : Nat) (m : SessionMeta),
      r.lookup id = some m →
      (reapSession r id w now).lookup id =
        some { m with
               status := if m.status = .running then exitToStatus w else m.status
               updated_at := now
               pid := none }) ∧
    (exitToStatus (.exited true) = .stopped ∧
      exitToStatus (.exited false) = .errored "Process exited with non-zero status" ∧
      (∀ e : String, exitToStatus (.waitFailed e) = .errored e)) ∧
    (∀ (r : Registry) (op : RegOp) (id : Nat) (m m' : SessionMeta),
      r.lookup id = some m → (stepReg r op).lookup id = some m' →
      m.status ≠ .running → m'.status = m.status) := by
  refine ⟨fun r id w now m hm => reap_lookup r id w now m hm,
    ⟨rfl, rfl, fun _ => rfl⟩, ?_⟩
  intro r op id m m' hm hm' hterm
  cases op with
  | spawn id0 name tool wd args pid now =>
    by_cases hp : (r.lookup id0).isSome
    · rw [show stepReg r (.spawn id0 name tool wd args pid now) = r by
        simp [stepReg, hp]] at hm'
      rw [hm] at hm'
      injection hm' with hm''
      rw [← hm'']
    · by_cases he : id0 = id
      · subst he
        rw [hm] at hp
        simp at hp
      · rw [stepReg_spawn_fresh r id0 name tool wd args pid now hp,
          lookup_cons_reg, if_neg he, hm] at hm'
        injection hm' with hm''
        rw [← hm'']
  | stop id0 now =>
    cases hl : r.lookup id0 with
    | none =>
      rw [stepReg_stop_notFound r id0 now hl, hm] at hm'
      injection hm' with hm''
      rw [← hm'']
    | some m0 =>
      by_cases hs : m0.status = .running
      · rw [stepReg_stop_running r id0 now m0 hl hs] at hm'
        by_cases he : id = id0
        · subst he
          rw [hm] at hl
          injection hl with hl'
          rw [← hl'] at hs
          exact absurd hs hterm
        · rw [lookup_updateSession_ne r id0 id _ he, hm] at hm'
          injection hm' with hm''
          rw [← hm'']
      · rw [stepReg_stop_terminal r id0 now m0 hl hs, hm] at hm'
        injection hm' with hm''
        rw [← hm'']
  | reap id0 w now =>
    have hstep : stepReg r (.reap id0 w now) = reapSession r id0 w now := rfl
    rw [hstep] at hm'
    by_cases he : id = id0
    · subst he
      rw [reap_lookup r id w now m hm] at hm'
      injection hm' with hm''
      have hstat : m'.status = if m.status = .running then exitToStatus w else m.status := by
        rw [← hm'']
      rw [if_neg hterm] at hstat
      exact hstat
    · rw [reapSession, lookup_updateSession_ne r id0 id _ he, hm] at hm'
      injection hm' with hm''
      rw [← hm'']

/-- Metadata of a stopped session that still carries a pid. -/
def demoStoppedMeta : SessionMeta :=
  { id := 1, name := "s", tool := .claude, status := .stopped, working_dir := "/w",
    created_at := 0, updated_at := 1, pid := some 5, extra_args := [] }

/-- C5 witness: reaping a session that is already Stopped keeps the status
Stopped while clearing pid and setting updated_at. -/
theorem reaper_preserves_terminal_status_witness :
    ([(1, demoStoppedMeta)] : Registry).lookup 1 = some demoStoppedMeta ∧
    (reapSession [(1, demoStoppedMeta)] 1 (.exited false) 7).lookup 1 =
      some { demoStoppedMeta with
             status := if demoStoppedMeta.status = .running then exitToStatus (.exited false)
                       else demoStoppedMeta.status
             updated_at := 7
             pid := none } :=
  ⟨rfl, reaper_preserves_terminal_status.1 [(1, demoStoppedMeta)] 1 (.exited false) 7
    demoStoppedMeta rfl⟩

/-- C6 witness: capacity 2, three pushes; the snapshot is the last two
entries in order. -/
theorem sessionLog_bounded_fifo_witness :
    (1 ≤ 2 ∧ 2 < ([((0 : Nat), "a"), (1, "b"), (2, "c")]).length) ∧
    (SessionLog.pushAll (SessionLog.new 2 none) [(0, "a"), (1, "b"), (2, "c")]).snapshot =
      ([((0 : Nat), "a"), (1, "b"), (2, "c")].map mkLogEntry).drop
        (([((0 : Nat), "a"), (1, "b"), (2, "c")]).length - 2) :=
  ⟨⟨by decide, by decide⟩,
    (sessionLog_bounded_fifo 2 (by decide) [(0, "a"), (1, "b"), (2, "c")] (by decide)).1⟩

/-- C2: the resize operation succeeds for a running session when rows and
cols are both within 1..=500, and fails with NotFound on an unknown id,
AlreadyStopped on a terminal session, and the invalid-size rejection when
rows or cols lies outside 1..=500. -/
theorem resize_session_contract :
    (∀ (r : Registry) (id rows cols : Nat) (m : SessionMeta),
      r.lookup id = some m → m.status = .running →
      1 ≤ rows → rows ≤ 500 → 1 ≤ cols → cols ≤ 500 →
      resize_session r id rows cols = .ok ()) ∧
    (∀ (r : Registry) (id rows cols : Nat),
      r.lookup id = none → 1 ≤ rows → rows ≤ 500 → 1 ≤ cols → cols ≤ 500 →
      resize_session r id rows cols = .error (.forge (.sessionNotFound id))) ∧
    (∀ (r : Registry) (id rows cols : Nat) (m : SessionMeta),
      r.lookup id = some m → m.status ≠ .running →
      1 ≤ rows → rows ≤ 500 → 1 ≤ cols → cols ≤ 500 →
      resize_session r id rows cols = .error (.forge (.sessionAlreadyStopped id))) ∧
    (∀ (r : Registry) (id rows cols : Nat),
      rows = 0 ∨ 500 < rows ∨ cols = 0 ∨ 500 < cols →
      resize_session r id rows cols = .error .invalidSize) := by
  refine ⟨?_, ?_, ?_, ?_⟩
  · intro r id rows cols m hm hrun h1 h2 h3 h4
    have hman : SessionManager.resize r id rows cols = .ok () := by
      rw [SessionManager.resize, hm]
      exact if_neg (not_not_intro hrun)
    rw [resize_session, if_neg (by omega), hman]
  · intro r id rows cols hm h1 h2 h3 h4
    have hman : SessionManager.resize r id rows cols =
        .error (.sessionNotFound id) := by
      rw [SessionManager.resize, hm]
    rw [resize_session, if_neg (by omega), hman]
  · intro r id rows cols m hm hterm h1 h2 h3 h4
    have hman : SessionManager.resize r id rows cols =
        .error (.sessionAlreadyStopped id) := by
      rw [SessionManager.resize, hm]
      exact if_pos hterm
    rw [resize_session, if_neg (by omega), hman]
  · intro r id rows cols h
    rw [resize_session, if_pos (by omega)]

/-- Registry with session 1 running, used by concrete checks. -/
def demoRunningMeta : SessionMeta := spawnMeta 1 "s" .claude "/w" [] 5 0

/-- C2 witness: the concrete boundary checks of the claim on a registry
holding one running session: (1,1) and (500,500) succeed, (0,80),
(501,80), (24,0), (24,501) fail with the size rejection. -/
theorem resize_session_contract_witness :
    resize_session [(1, demoRunningMeta)] 1 1 1 = .ok () ∧
    resize_session [(1, demoRunningMeta)] 1 500 500 = .ok () ∧
    resize_session [(1, demoRunningMeta)] 1 0 80 = .error .invalidSize ∧
    resize_session [(1, demoRunningMeta)] 1 501 80 = .error .invalidSize ∧
    resize_session [(1, demoRunningMeta)] 1 24 0 = .error .invalidSize ∧
    resize_session [(1, demoRunningMeta)] 1 24 501 = .error .invalidSize :=
  ⟨resize_session_contract.1 [(1, demoRunningMeta)] 1 1 1 demoRunningMeta rfl rfl
      (by decide) (by decide) (by decide) (by decide),
    resize_session_contract.1 [(1, demoRunningMeta)] 1 500 500 demoRunningMeta rfl rfl
      (by decide) (by decide) (by decide) (by decide),
    resize_session_contract.2.2.2 [(1, demoRunningMeta)] 1 0 80 (by omega),
    resize_session_contract.2.2.2 [(1, demoRunningMeta)] 1 501 80 (by omega),
    resize_session_contract.2.2.2 [(1, demoRunningMeta)] 1 24 0 (by omega),
    resize_session_contract.2.2.2 [(1, demoRunningMeta)] 1 24 501 (by omega)⟩

/-- C7: during creation the PTY is resized to the rows and cols requested
by the caller, defaulting to 24 by 80 when unspecified, and a PTY-open
failure as well as a resize failure surface as a Pty error from spawn. -/
theorem spawn_pty_resize_contract :
    (∀ (reqRows reqCols : Option Nat) (resizeResult : Except String Unit) (e : String),
      spawnPtyPhase (.error e) resizeResult (requestedSize reqRows reqCols).1
          (requestedSize reqRows reqCols).2 =
        .error (.pty ("Failed to create PTY: " ++ e))) ∧
    (∀ (reqRows reqCols : Option Nat) (e : String),
      spawnPtyPhase (.ok ()) (.error e) (requestedSize reqRows reqCols).1
          (requestedSize reqRows reqCols).2 =
        .error (.pty ("Failed to resize PTY: " ++ e))) ∧
    (∀ reqRows reqCols : Option Nat,
      spawnPtyPhase (.ok ()) (.ok ()) (requestedSize reqRows reqCols).1
          (requestedSize reqRows reqCols).2 =
        .ok { rows := reqRows.getD 24, cols := reqCols.getD 80 }) ∧
    requestedSize none none = (24, 80) :=
  ⟨fun _ _ _ _ => rfl, fun _ _ _ => rfl, fun _ _ => rfl, rfl⟩

/-- C8: a failed bind of the attach socket still signals socket-ready and
ends the listener, leaving no attach listener; the failure is recorded
only in the log, and spawn still returns Ok with the metadata. -/
theorem attach_bind_failure_nonfatal :
    (∀ bindResult : Except String Unit,
      (run_attach_listener_bind bindResult).readySignaled = true) ∧
    (∀ e : String,
      run_attach_listener_bind (.error e) =
        { readySignaled := true, listening := false, loggedBindError := some e }) ∧
    (∀ (meta : SessionMeta) (bindResult : Except String Unit),
      (spawnAttachPhase meta bindResult).1 = .ok meta) ∧
    (∀ bindResult : Except String Unit,
      (run_attach_listener_bind bindResult).listening = exceptOk bindResult) := by
  refine ⟨fun b => ?_, fun _ => rfl, fun _ _ => rfl, fun b => ?_⟩
  · cases b <;> rfl
  · cases b <;> rfl

/-- A successful byte-bounded take spans exactly the requested bytes and
is a prefix of the input. -/
theorem takeBytes_spec (l : List Char) : ∀ (n : Nat) (p : List Char),
    takeBytes n l = some p → utf8Len p = n ∧ ∃ q, l = p ++ q := by
  induction l with
  | nil =>
    intro n p h
    cases n with
    | zero =>
      have h' : (some [] : Option (List Char)) = some p := h
      injection h' with h''
      subst h''
      exact ⟨rfl, [], rfl⟩
    | succ k => exact absurd h (by simp [takeBytes])
  | cons c cs ih =>
    intro n p h
    cases n with
    | zero =>
      have h' : (some [] : Option (List Char)) = some p := h
      injection h' with h''
      subst h''
      exact ⟨rfl, c :: cs, rfl⟩
    | succ k =>
      rw [takeBytes] at h
      by_cases hw : charLenUtf8 c ≤ k + 1
      · rw [if_pos hw] at h
        cases ht : takeBytes (k + 1 - charLenUtf8 c) cs with
        | none => rw [ht] at h; exact absurd h (by simp)
        | some p' =>
          rw [ht] at h
          rw [Option.map_some'] at h
          injection h with h2
          obtain ⟨h1, q, hq⟩ := ih (k + 1 - charLenUtf8 c) p' ht
          subst h2
          constructor
          · show charLenUtf8 c + utf8Len p' = k + 1
            omega
          · exact ⟨q, by rw [hq]; rfl⟩
      · rw [if_neg hw] at h
        exact absurd h (by simp)

/-- C3 amended: compact_string whitespace-trims its input; a trimmed
string of more than 6000 UTF-8 bytes is truncated at exactly 6000 bytes
with the ellipsis character appended, the cut consisting of whole
characters; when byte offset 6000 of the trimmed string is not a
character boundary the underlying String::truncate panics instead, which
is the only way compact_string fails. -/
theorem compact_string_trims_truncates_bytes (s : String) :
    (utf8Len (rustTrim s).data ≤ 6000 → compact_string s = some (rustTrim s)) ∧
    (∀ t : String, compact_string s = some t → 6000 < utf8Len (rustTrim s).data →
      ∃ p q : List Char, (rustTrim s).data = p ++ q ∧ utf8Len p = 6000 ∧
        t = String.mk (p ++ ['…'])) ∧
    (compact_string s = none → 6000 < utf8Len (rustTrim s).data) := by
  have hpart1 : utf8Len (rustTrim s).data ≤ 6000 → compact_string s = some (rustTrim s) := by
    intro hle
    simp only [compact_string, MAX_TEXT_LEN]
    rw [if_neg (by omega)]
  refine ⟨hpart1, ?_, ?_⟩
  · intro t ht hgt
    simp only [compact_string, MAX_TEXT_LEN] at ht
    rw [if_pos hgt, rustTruncate, if_neg (by omega)] at ht
    cases htb : takeBytes 6000 (rustTrim s).data with
    | none => rw [htb] at ht; exact absurd ht (by simp)
    | some p =>
      rw [htb, Option.map_some', Option.map_some'] at ht
      injection ht with ht2
      obtain ⟨h6000, q, hq⟩ := takeBytes_spec (rustTrim s).data 6000 p htb
      exact ⟨p, q, hq, h6000, ht2.symm⟩
  · intro hnone
    by_cases h : 6000 < utf8Len (rustTrim s).data
    · exact h
    · rw [hpart1 (by omega)] at hnone
      exact Option.noConfusion hnone

/-- C3 witness: a short padded string is merely trimmed. -/
theorem compact_string_trims_truncates_bytes_witness :
    utf8Len (rustTrim "  hi  ").data ≤ 6000 ∧
    compact_string "  hi  " = some (rustTrim "  hi  ") :=
  ⟨by decide, (compact_string_trims_truncates_bytes "  hi  ").1 (by decide)⟩

/-- String of n copies of a two-byte character. -/
def eAcuteString (n : Nat) : String := ⟨List.replicate n 'é'⟩

/-- Underlying character list of the repeated-character string. -/
theorem eAcuteString_data (n : Nat) : (eAcuteString n).data = List.replicate n 'é' := rfl

/-- Byte length of a run of two-byte characters. -/
theorem utf8Len_replicate_eAcute (n : Nat) :
    utf8Len (List.replicate n 'é') = 2 * n := by
  induction n with
  | zero => rfl
  | succ k ih =>
    rw [List.replicate_succ, utf8Len, ih]
    show 2 + 2 * k = 2 * (k + 1)
    omega

/-- Byte-bounded take on a run of two-byte characters. -/
theorem takeBytes_replicate_eAcute : ∀ n m : Nat, n ≤ m →
    takeBytes (2 * n) (List.replicate m 'é') = some (List.replicate n 'é') := by
  intro n
  induction n with
  | zero =>
    intro m _
    cases m with
    | zero => rfl
    | succ m' => rw [List.replicate_succ]; rfl
  | succ k ih =>
    intro m hm
    cases m with
    | zero => omega
    | succ m' =>
      have h1 : 2 * (k + 1) = (2 * k + 1) + 1 := by omega
      rw [h1, List.replicate_succ, takeBytes,
        if_pos (show charLenUtf8 'é' ≤ 2 * k + 1 + 1 from by
          show 2 ≤ 2 * k + 1 + 1; omega),
        show 2 * k + 1 + 1 - charLenUtf8 'é' = 2 * k from by
          show 2 * k + 1 + 1 - 2 = 2 * k; omega,
        ih m' (by omega), Option.map_some']
      rw [show List.replicate (k + 1) 'é' = 'é' :: List.replicate k 'é' from
        List.replicate_succ ..]

/-- Dropping whitespace from a run of non-whitespace characters is the
identity. -/
theorem dropWhile_replicate_eAcute (k : Nat) :
    (List.replicate k 'é').dropWhile rustIsWhitespace = List.replicate k 'é' := by
  cases k with
  | zero => rfl
  | succ k' =>
    rw [List.replicate_succ, List.dropWhile_cons,
      show rustIsWhitespace 'é' = false from rfl]
    simp

/-- Trimming the repeated-character string is the identity. -/
theorem rustTrim_eAcuteString (n : Nat) : rustTrim (eAcuteString n) = eAcuteString n := by
  show (⟨((((eAcuteString n).data.dropWhile rustIsWhitespace).reverse.dropWhile
      rustIsWhitespace)).reverse⟩ : String) = eAcuteString n
  rw [eAcuteString_data, dropWhile_replicate_eAcute, List.reverse_replicate,
    dropWhile_replicate_eAcute, List.reverse_replicate]
  rfl

/-- C3 counterexample: 3001 copies of a two-byte character form a string
of 3001 UTF-8 characters, which by the claim stays untouched apart from
trimming; the code counts 6002 bytes and truncates at 6000 bytes, that
is, after 3000 characters, appending the ellipsis. -/
theorem compact_string_bytes_not_chars_counterexample :
    (eAcuteString 3001).data.length = 3001 ∧
    compact_string (eAcuteString 3001) ≠ some (eAcuteString 3001) ∧
    compact_string (eAcuteString 3001) =
      some (String.mk (List.replicate 3000 'é' ++ ['…'])) := by
  have hlen : utf8Len (rustTrim (eAcuteString 3001)).data = 6002 := by
    rw [rustTrim_eAcuteString, eAcuteString_data, utf8Len_replicate_eAcute]
  have heq : compact_string (eAcuteString 3001) =
      some (String.mk (List.replicate 3000 'é' ++ ['…'])) := by
    simp only [compact_string, MAX_TEXT_LEN]
    rw [if_pos (by omega), rustTruncate, if_neg (by omega),
      rustTrim_eAcuteString, eAcuteString_data,
      show (6000 : Nat) = 2 * 3000 from by norm_num,
      takeBytes_replicate_eAcute 3000 3001 (by omega),
      Option.map_some', Option.map_some']
    rfl
  refine ⟨?_, ?_, heq⟩
  · rw [eAcuteString_data]
    simp
  · rw [heq]
    intro hcontra
    injection hcontra with hc
    have hd : List.replicate 3000 'é' ++ ['…'] = List.replicate 3001 'é' :=
      congrArg String.data hc
    conv at hd =>
      rhs
      rw [show (3001 : Nat) = 3000 + 1 from rfl, List.replicate_succ']
    have h2 := congrArg List.getLast? hd
    rw [List.getLast?_append_cons, List.getLast?_append_cons] at h2
    simp only [List.getLast?_singleton] at h2
    exact absurd h2 (by decide)

/-- C9: augment_snapshot_from_terminal_output modifies at most the
pending_question field: whenever it returns a snapshot, every other field
equals the input's, and when the input already carries a pending question
the snapshot is returned entirely unchanged. -/
theorem augment_snapshot_frame (snapshot : ChatSnapshot) (terminal_output : String)
    (snapshot' : ChatSnapshot)
    (h : augment_snapshot_from_terminal_output snapshot terminal_output = some snapshot') :
    snapshot'.available = snapshot.available ∧
    snapshot'.transcript_path = snapshot.transcript_path ∧
    snapshot'.permission_mode = snapshot.permission_mode ∧
    snapshot'.view_mode = snapshot.view_mode ∧
    snapshot'.state = snapshot.state ∧
    snapshot'.status_label = snapshot.status_label ∧
    snapshot'.messages = snapshot.messages ∧
    snapshot'.plan = snapshot.plan ∧
    (snapshot.pending_question.isSome = true → snapshot' = snapshot) := by
  rw [augment_snapshot_from_terminal_output] at h
  by_cases hp : snapshot.pending_question.isSome = true
  · rw [if_pos hp] at h
    injection h with h2
    subst h2
    exact ⟨rfl, rfl, rfl, rfl, rfl, rfl, rfl, rfl, fun _ => rfl⟩
  · rw [if_neg hp] at h
    by_cases hn : normalize_terminal_output terminal_output = ""
    · rw [if_pos hn] at h
      injection h with h2
      subst h2
      exact ⟨rfl, rfl, rfl, rfl, rfl, rfl, rfl, rfl, fun _ => rfl⟩
    · rw [if_neg hn] at h
      cases hq : parse_terminal_choice_prompt (normalize_terminal_output terminal_output) with
      | none =>
        rw [hq] at h
        exact absurd h (by simp)
      | some q =>
        rw [hq] at h
        cases q with
        | none =>
          have h2 : snapshot = snapshot' := Option.some.inj h
          subst h2
          exact ⟨rfl, rfl, rfl, rfl, rfl, rfl, rfl, rfl, fun hps => absurd hps hp⟩
        | some question =>
          have h2 : ({ snapshot with pending_question := some question } : ChatSnapshot) =
              snapshot' := Option.some.inj h
          subst h2
          exact ⟨rfl, rfl, rfl, rfl, rfl, rfl, rfl, rfl, fun hps => absurd hps hp⟩

/-- Chat snapshot already carrying a pending question, used as a concrete
input. -/
def questionChatSnapshot : ChatSnapshot :=
  { available := true, transcript_path := none, permission_mode := "default",
    view_mode := "default", state := "awaiting_input",
    status_label := "Waiting for your answer", messages := [],
    pending_question := some { tool_use_id := "t1", questions := [] }, plan := none }

/-- C9 witness: on a snapshot that already carries a pending question,
augmentation returns the snapshot unchanged, and the frame theorem applied
to that run gives the unchanged fields. -/
theorem augment_snapshot_frame_witness :
    augment_snapshot_from_terminal_output questionChatSnapshot "hello" =
        some questionChatSnapshot ∧
    questionChatSnapshot.plan = questionChatSnapshot.plan := by
  have h : augment_snapshot_from_terminal_output questionChatSnapshot "hello" =
      some questionChatSnapshot := rfl
  exact ⟨h,
    (augment_snapshot_frame questionChatSnapshot "hello" questionChatSnapshot h).2.2.2.2.2.2.2.1⟩
